import Mathlib

/-!
# HUGS real-time core: tick clock, timeout supervisor, supervisory loop

A shallow embedding of `HUGS/Src/it.c` and of the two classification
expressions of the main loop in `HUGS/Src/main.c`.

* C globals become the fields of `State`; every handler is a function on `State`.
* `uint32_t` values are `Nat` and every increment is taken modulo `2 ^ 32`.
* The 1 ms handler returns, next to the new state, the list of things it did
  that are visible from outside: its store to `speed` and the calls it makes.
* Constants that live in `config.h` / `defines.h` (`TIMEOUT_MS`, the build
  variant, `SPEED_COEFFICIENT`, the battery thresholds) are parameters.
-/

namespace HUGS

/-! ## Data model -/

/-- The two-valued status type of the vendor header (`RESET = 0`, `SET = !RESET`). -/
inductive FlagStatus where
  | RESET
  | SET
  deriving DecidableEq, Repr

/-- Number of values of a `uint32_t`. -/
def U32 : Nat := 4294967296

/-- Build-time configuration: the threshold `TIMEOUT_MS` and whether `SLAVE` is defined. -/
structure Config where
  TIMEOUT_MS : Nat
  SLAVE : Bool
  deriving DecidableEq, Repr

/-- The file-scope variables of `it.c` together with the `extern` variable `speed`. -/
structure State where
  msTicks : Nat
  timeoutCounter_ms : Nat
  timedOut : FlagStatus
  speed : Int
  hornCounter_ms : Nat
  deriving DecidableEq, Repr

/-- What a run of `TIMER13_IRQHandler` does besides updating the counters and the flag:
its assignment to `speed` and its calls into other modules, in program order. -/
inductive Action where
  | storeSpeed (v : Int)
  | SetPWM (v : Int)
  | SetUpperLEDMaster (f : FlagStatus)
  | CalculateLEDProgram
  | timer_interrupt_flag_clear
  deriving DecidableEq, Repr

/-- State right after start-up: the initialisers of `it.c`
(`timeoutCounter_ms = 0`, `timedOut = SET`, zeroed `msTicks`, `hornCounter_ms = 0`)
with the commanded speed left free. -/
def boot (speed : Int) : State :=
  { msTicks := 0, timeoutCounter_ms := 0, timedOut := FlagStatus.SET,
    speed := speed, hornCounter_ms := 0 }

/-! ## Handlers of `it.c` -/

/-- The body of `SysTick_Handler`: `msTicks++` on a `uint32_t`. -/
def SysTick_Handler (s : State) : State :=
  { s with msTicks := (s.msTicks + 1) % U32 }

/-- The body of `ResetTimeout`: `timeoutCounter_ms = 0`. -/
def ResetTimeout (s : State) : State :=
  { s with timeoutCounter_ms := 0 }

/-- First `if`/`else` of `TIMER13_IRQHandler` (lines 69-86): the timeout supervisor. -/
def timeoutBlock (cfg : Config) (s : State) : State × List Action :=
  if s.timeoutCounter_ms > cfg.TIMEOUT_MS then
    if s.timedOut = FlagStatus.RESET then
      ({ s with speed := 0, timedOut := FlagStatus.SET },
        Action.storeSpeed 0 :: (if cfg.SLAVE then [Action.SetPWM 0] else []))
    else
      ({ s with timedOut := FlagStatus.SET }, [])
  else
    ({ s with timedOut := FlagStatus.RESET,
              timeoutCounter_ms := (s.timeoutCounter_ms + 1) % U32 }, [])

/-- The `#ifdef SLAVE` part of `TIMER13_IRQHandler` (lines 88-101): horn ceiling and
LED program update. On the other variant the block is compiled out. -/
def hornBlock (cfg : Config) (s : State) : State × List Action :=
  if cfg.SLAVE then
    if s.hornCounter_ms ≥ 2000 then
      (s, [Action.SetUpperLEDMaster FlagStatus.RESET, Action.CalculateLEDProgram])
    else if s.hornCounter_ms < 2000 then
      ({ s with hornCounter_ms := (s.hornCounter_ms + 1) % U32 }, [Action.CalculateLEDProgram])
    else
      (s, [Action.CalculateLEDProgram])
  else
    (s, [])

/-- The 1 kHz handler `TIMER13_IRQHandler`: supervisor block, horn block,
then the interrupt flag is cleared. -/
def TIMER13_IRQHandler (cfg : Config) (s : State) : State × List Action :=
  let r1 := timeoutBlock cfg s
  let r2 := hornBlock cfg r1.1
  (r2.1, r1.2 ++ r2.2 ++ [Action.timer_interrupt_flag_clear])

/-- State after one run of `TIMER13_IRQHandler`. -/
def tick (cfg : Config) (s : State) : State :=
  (TIMER13_IRQHandler cfg s).1

/-- Whether one run of `TIMER13_IRQHandler` from `s` assigns to `speed`. -/
def storesSpeed (cfg : Config) (s : State) : Bool :=
  (TIMER13_IRQHandler cfg s).2.any (fun a => match a with
    | Action.storeSpeed _ => true
    | _ => false)

/-- Whether one run of `TIMER13_IRQHandler` from `s` calls `SetUpperLEDMaster(RESET)`. -/
def forcesHornOff (cfg : Config) (s : State) : Bool :=
  (TIMER13_IRQHandler cfg s).2.any (fun a => decide (a = Action.SetUpperLEDMaster FlagStatus.RESET))

/-- State after `n` consecutive runs of `TIMER13_IRQHandler`. -/
def ticks (cfg : Config) : Nat → State → State
  | 0, s => s
  | n + 1, s => ticks cfg n (tick cfg s)

/-! ## Interleavings -/

/-- What can happen between two observations of the supervisor state: the 1 ms
interrupt, a call of `ResetTimeout`, or a store to `speed` by its owner
(the link ingestion code). -/
inductive Ev where
  | tick
  | reset
  | write (v : Int)
  deriving DecidableEq, Repr

/-- One event applied to a state, with the actions of the handler if it ran. -/
def step (cfg : Config) (s : State) : Ev → State × List Action
  | Ev.tick => TIMER13_IRQHandler cfg s
  | Ev.reset => (ResetTimeout s, [])
  | Ev.write v => ({ s with speed := v }, [])

/-- State after a sequence of events. -/
def exec (cfg : Config) : State → List Ev → State
  | s, [] => s
  | s, e :: es => exec cfg (step cfg s e).1 es

/-- Record of one event of a run: the state before, the event, the state after
and the actions performed. -/
structure Step where
  pre : State
  ev : Ev
  post : State
  acts : List Action
  deriving DecidableEq, Repr

/-- Whether the recorded event assigned to `speed`. -/
def Step.fired (st : Step) : Bool :=
  st.acts.any (fun a => match a with
    | Action.storeSpeed _ => true
    | _ => false)

/-- The records of all events of a run, in order. -/
def trace (cfg : Config) : State → List Ev → List Step
  | _, [] => []
  | s, e :: es =>
    { pre := s, ev := e, post := (step cfg s e).1, acts := (step cfg s e).2 }
      :: trace cfg (step cfg s e).1 es

/-- Number of 1 ms interrupts in a sequence of events. -/
def tickCount : List Ev → Nat
  | [] => 0
  | Ev.tick :: es => tickCount es + 1
  | _ :: es => tickCount es

/-- No `ResetTimeout` call occurs in the sequence. -/
def noReset : List Ev → Bool
  | [] => true
  | Ev.reset :: _ => false
  | _ :: es => noReset es

/-- Every maximal run of interrupts without a `ResetTimeout` call in between has
at most `T` interrupts, when `r` interrupts have already gone by since the last call. -/
def boundedRuns (T : Nat) : Nat → List Ev → Bool
  | _, [] => true
  | r, Ev.tick :: es => decide (r + 1 ≤ T) && boundedRuns T (r + 1) es
  | _, Ev.reset :: es => boundedRuns T 0 es
  | r, Ev.write _ :: es => boundedRuns T r es

/-! ## The busy-wait delay -/

/-- Subtraction of two `uint32_t` values, as in `msTicks - curTicks`. -/
def sub32 (a b : Nat) : Nat :=
  (a + (U32 - b % U32)) % U32

/-- The `while` loop of `Delay`. The tick interrupt runs asynchronously, so the loop is
driven by a schedule: one entry per pass through the loop body, `true` when
`SysTick_Handler` runs once during that pass. The second component counts the runs of
`SysTick_Handler` seen so far. The result is `none` when the schedule ends with the loop
still waiting. -/
def DelayLoop (curTicks dlyTicks : Nat) : State → Nat → List Bool → Option (State × Nat)
  | s, e, [] =>
    if sub32 s.msTicks curTicks < dlyTicks then none else some (s, e)
  | s, e, b :: rest =>
    if sub32 s.msTicks curTicks < dlyTicks then
      DelayLoop curTicks dlyTicks (if b then SysTick_Handler s else s) (if b then e + 1 else e) rest
    else some (s, e)

/-- The function `Delay`: `curTicks = msTicks`, then the loop. Returns the state at the
moment of return and the number of tick interrupts that went by during the call. -/
def Delay (dlyTicks : Nat) (s : State) (sched : List Bool) : Option (State × Nat) :=
  DelayLoop s.msTicks dlyTicks s 0 sched

/-! ## Expressions of the main loop -/

/-- Modelled from the spec: the `CLAMP` macro of `defines.h`, which is not part of the
sources at hand; the spec describes the value as the command clamped to the speed clamp
bounds, so a value above the upper bound gives the upper bound and a value below the
lower bound gives the lower bound. -/
def CLAMP (x low high : Int) : Int :=
  if x > high then high else if x < low then low else x

/-- Value of an integer after conversion to `int32_t`. -/
def toInt32 (x : Int) : Int :=
  (x + 2147483648) % 4294967296 - 2147483648

/-- Value of an integer after conversion to `int16_t`. -/
def toInt16 (x : Int) : Int :=
  (x + 32768) % 65536 - 32768

/-- The assignment to `scaledSpeed` in the main loop (line 120), with the constant
`SPEED_COEFFICIENT` of `config.h` taken as an integer parameter: the conditional
expression is computed in `int` and stored in an `int16_t`. -/
def scaledSpeed (SPEED_COEFFICIENT : Int) (speed : Int) : Int :=
  toInt16 (if speed < 50 ∧ speed > -50 then 0
    else toInt32 (CLAMP speed (-1000) 1000 * SPEED_COEFFICIENT))

/-- The four things the main loop can do with the battery voltage:
`ShowBatteryState(LED_GREEN)`, `ShowBatteryState(LED_ORANGE)`,
`ShowBatteryState(LED_RED)` or `ShutOff()`. -/
inductive BatteryOutcome where
  | green
  | orange
  | red
  | shutdown
  deriving DecidableEq, Repr

/-- The `if` / `else if` chain of the main loop (lines 132-153) over exact rationals,
with the three thresholds of `config.h` as parameters. -/
def batteryBand (BAT_LOW_LVL1 BAT_LOW_LVL2 BAT_LOW_DEAD : ℚ) (batteryVoltage : ℚ) :
    BatteryOutcome :=
  if batteryVoltage > BAT_LOW_LVL1 then BatteryOutcome.green
  else if batteryVoltage > BAT_LOW_LVL2 ∧ batteryVoltage < BAT_LOW_LVL1 then
    BatteryOutcome.orange
  else if batteryVoltage > BAT_LOW_DEAD ∧ batteryVoltage < BAT_LOW_LVL2 then
    BatteryOutcome.red
  else BatteryOutcome.shutdown

/-! ## Invariant of the supervisor -/

/-- Supervisor state after `k` interrupts from boot with no `ResetTimeout` in between:
the counter follows `k` up to `TIMEOUT_MS + 1` and stays there, and the flag reads
`RESET` exactly from the first interrupt up to interrupt `TIMEOUT_MS + 1`. -/
def SupInv (cfg : Config) (k : Nat) (s : State) : Prop :=
  s.timeoutCounter_ms = min k (cfg.TIMEOUT_MS + 1) ∧
  (s.timedOut = FlagStatus.RESET ↔ (1 ≤ k ∧ k ≤ cfg.TIMEOUT_MS + 1))

/-! ## Basic facts about one run of the 1 ms handler -/

theorem hornBlock_fields (cfg : Config) (s : State) :
    (hornBlock cfg s).1.timeoutCounter_ms = s.timeoutCounter_ms ∧
    (hornBlock cfg s).1.timedOut = s.timedOut ∧
    (hornBlock cfg s).1.speed = s.speed ∧
    (hornBlock cfg s).1.msTicks = s.msTicks := by
  unfold hornBlock
  split_ifs <;> simp

theorem hornBlock_no_store (cfg : Config) (s : State) (v : Int) :
    Action.storeSpeed v ∉ (hornBlock cfg s).2 := by
  unfold hornBlock
  split_ifs <;> simp

/-- A run of the handler with the counter at or below the threshold. -/
theorem tick_below (cfg : Config) (s : State) (h : s.timeoutCounter_ms ≤ cfg.TIMEOUT_MS) :
    (tick cfg s).timeoutCounter_ms = (s.timeoutCounter_ms + 1) % U32 ∧
    (tick cfg s).timedOut = FlagStatus.RESET ∧
    (tick cfg s).speed = s.speed ∧
    storesSpeed cfg s = false := by
  have hn : ¬ s.timeoutCounter_ms > cfg.TIMEOUT_MS := by omega
  have hb := hornBlock_fields cfg (timeoutBlock cfg s).1
  have hs : ∀ v, Action.storeSpeed v ∉ (hornBlock cfg (timeoutBlock cfg s).1).2 :=
    hornBlock_no_store cfg _
  have ht : timeoutBlock cfg s = (⟨s.msTicks, (s.timeoutCounter_ms + 1) % U32,
      FlagStatus.RESET, s.speed, s.hornCounter_ms⟩, []) := by
    simp [timeoutBlock, hn]
  refine ⟨?_, ?_, ?_, ?_⟩
  · simp only [tick, TIMER13_IRQHandler]; rw [hb.1, ht]
  · simp only [tick, TIMER13_IRQHandler]; rw [hb.2.1, ht]
  · simp only [tick, TIMER13_IRQHandler]; rw [hb.2.2.1, ht]
  · simp only [storesSpeed, TIMER13_IRQHandler]
    rw [ht] at hs ⊢
    rw [Bool.eq_false_iff]
    intro hc
    rw [List.any_eq_true] at hc
    obtain ⟨a, ha, hm⟩ := hc
    cases a <;> simp at hm
    simp at ha
    exact hs _ ha

/-- A run of the handler with the counter above the threshold and the flag set. -/
theorem tick_above_set (cfg : Config) (s : State) (h : s.timeoutCounter_ms > cfg.TIMEOUT_MS)
    (hf : s.timedOut = FlagStatus.SET) :
    (tick cfg s).timeoutCounter_ms = s.timeoutCounter_ms ∧
    (tick cfg s).timedOut = FlagStatus.SET ∧
    (tick cfg s).speed = s.speed ∧
    storesSpeed cfg s = false := by
  have hb := hornBlock_fields cfg (timeoutBlock cfg s).1
  have hs : ∀ v, Action.storeSpeed v ∉ (hornBlock cfg (timeoutBlock cfg s).1).2 :=
    hornBlock_no_store cfg _
  have ht : timeoutBlock cfg s = (⟨s.msTicks, s.timeoutCounter_ms,
      FlagStatus.SET, s.speed, s.hornCounter_ms⟩, []) := by
    simp [timeoutBlock, h, hf]
  refine ⟨?_, ?_, ?_, ?_⟩
  · simp only [tick, TIMER13_IRQHandler]; rw [hb.1, ht]
  · simp only [tick, TIMER13_IRQHandler]; rw [hb.2.1, ht]
  · simp only [tick, TIMER13_IRQHandler]; rw [hb.2.2.1, ht]
  · simp only [storesSpeed, TIMER13_IRQHandler]
    rw [ht] at hs ⊢
    rw [Bool.eq_false_iff]
    intro hc
    rw [List.any_eq_true] at hc
    obtain ⟨a, ha, hm⟩ := hc
    cases a <;> simp at hm
    simp at ha
    exact hs _ ha

/-- A run of the handler with the counter above the threshold and the flag clear:
the edge on which the recovery action is taken. -/
theorem tick_above_reset (cfg : Config) (s : State) (h : s.timeoutCounter_ms > cfg.TIMEOUT_MS)
    (hf : s.timedOut = FlagStatus.RESET) :
    (tick cfg s).timeoutCounter_ms = s.timeoutCounter_ms ∧
    (tick cfg s).timedOut = FlagStatus.SET ∧
    (tick cfg s).speed = 0 ∧
    storesSpeed cfg s = true := by
  have hb := hornBlock_fields cfg (timeoutBlock cfg s).1
  have ht : timeoutBlock cfg s = (⟨s.msTicks, s.timeoutCounter_ms,
      FlagStatus.SET, 0, s.hornCounter_ms⟩,
      Action.storeSpeed 0 :: (if cfg.SLAVE then [Action.SetPWM 0] else [])) := by
    simp [timeoutBlock, h, hf]
  refine ⟨?_, ?_, ?_, ?_⟩
  · simp only [tick, TIMER13_IRQHandler]; rw [hb.1, ht]
  · simp only [tick, TIMER13_IRQHandler]; rw [hb.2.1, ht]
  · simp only [tick, TIMER13_IRQHandler]; rw [hb.2.2.1, ht]
  · simp only [storesSpeed, TIMER13_IRQHandler]
    rw [ht]
    simp

/-- While timed out and not reset, any number of further runs changes neither the
counter nor the flag nor the speed. -/
theorem ticks_above_set (cfg : Config) (n : Nat) (s : State)
    (h : s.timeoutCounter_ms > cfg.TIMEOUT_MS) (hf : s.timedOut = FlagStatus.SET) :
    (ticks cfg n s).timeoutCounter_ms = s.timeoutCounter_ms ∧
    (ticks cfg n s).timedOut = FlagStatus.SET ∧
    (ticks cfg n s).speed = s.speed := by
  induction n generalizing s with
  | zero => exact ⟨rfl, hf, rfl⟩
  | succ n ih =>
    obtain ⟨h1, h2, h3, _⟩ := tick_above_set cfg s h hf
    have := ih (tick cfg s) (by rw [h1]; exact h) h2
    simp only [ticks]
    rw [this.1, this.2.1, this.2.2, h1, h3]
    exact ⟨rfl, rfl, rfl⟩

/-! ## Claims about `ResetTimeout` and the saturating counter -/

/-- C4: `ResetTimeout` sets `timeoutCounter_ms` to 0 whatever it was before, leaves
`timedOut`, `speed`, `msTicks` and `hornCounter_ms` as they were, and applying it twice
gives the same state as applying it once. -/
theorem ResetTimeout_zero_idempotent (s : State) :
    (ResetTimeout s).timeoutCounter_ms = 0 ∧
    (ResetTimeout s).timedOut = s.timedOut ∧
    (ResetTimeout s).speed = s.speed ∧
    (ResetTimeout s).msTicks = s.msTicks ∧
    (ResetTimeout s).hornCounter_ms = s.hornCounter_ms ∧
    ResetTimeout (ResetTimeout s) = ResetTimeout s :=
  ⟨rfl, rfl, rfl, rfl, rfl, rfl⟩

/-- The counter bound is kept by every event. -/
theorem step_counter_le (cfg : Config) (s : State) (e : Ev)
    (h : s.timeoutCounter_ms ≤ cfg.TIMEOUT_MS + 1) :
    (step cfg s e).1.timeoutCounter_ms ≤ cfg.TIMEOUT_MS + 1 := by
  cases e with
  | tick =>
    show (tick cfg s).timeoutCounter_ms ≤ _
    by_cases hc : s.timeoutCounter_ms ≤ cfg.TIMEOUT_MS
    · rw [(tick_below cfg s hc).1]
      exact le_trans (Nat.mod_le _ _) (by omega)
    · have hb := hornBlock_fields cfg (timeoutBlock cfg s).1
      simp only [tick, TIMER13_IRQHandler]
      rw [hb.1]
      have hgt : s.timeoutCounter_ms > cfg.TIMEOUT_MS := by omega
      simp only [timeoutBlock, hgt, if_true]
      split_ifs <;> exact h
  | reset => simp [step, ResetTimeout]
  | write v => simpa [step] using h

theorem exec_counter_le (cfg : Config) (evs : List Ev) (s : State)
    (h : s.timeoutCounter_ms ≤ cfg.TIMEOUT_MS + 1) :
    (exec cfg s evs).timeoutCounter_ms ≤ cfg.TIMEOUT_MS + 1 := by
  induction evs generalizing s with
  | nil => exact h
  | cons e es ih => exact ih _ (step_counter_le cfg s e h)

/-- C9: a run of the handler taken with `timeoutCounter_ms > TIMEOUT_MS` leaves the counter
unchanged; hence, when `TIMEOUT_MS < 2^32 - 1`, in every state reached from boot by
interrupts, `ResetTimeout` calls and speed writes the counter is at most `TIMEOUT_MS + 1`,
it is below `2^32`, and each increment the handler performs is an exact `+ 1`
(no wrap-around). -/
theorem counter_saturates (cfg : Config) (hT : cfg.TIMEOUT_MS + 1 < U32) :
    (∀ s : State, s.timeoutCounter_ms > cfg.TIMEOUT_MS →
      (tick cfg s).timeoutCounter_ms = s.timeoutCounter_ms) ∧
    (∀ (v : Int) (evs : List Ev),
      (exec cfg (boot v) evs).timeoutCounter_ms ≤ cfg.TIMEOUT_MS + 1 ∧
      (exec cfg (boot v) evs).timeoutCounter_ms < U32 ∧
      ((exec cfg (boot v) evs).timeoutCounter_ms ≤ cfg.TIMEOUT_MS →
        (tick cfg (exec cfg (boot v) evs)).timeoutCounter_ms
          = (exec cfg (boot v) evs).timeoutCounter_ms + 1)) := by
  constructor
  · intro s hs
    have hb := hornBlock_fields cfg (timeoutBlock cfg s).1
    simp only [tick, TIMER13_IRQHandler]
    rw [hb.1]
    unfold timeoutBlock
    split_ifs <;> rfl
  · intro v evs
    have hle := exec_counter_le cfg evs (boot v) (by simp [boot])
    refine ⟨hle, by omega, ?_⟩
    intro hc
    rw [(tick_below cfg _ hc).1]
    exact Nat.mod_eq_of_lt (by omega)

/-- C9 at `TIMEOUT_MS = 100`: after 300 interrupts the counter still reads 101. -/
theorem counter_saturates_witness :
    (100 + 1 < U32) ∧
    (exec ⟨100, false⟩ (boot 7) (List.replicate 300 Ev.tick)).timeoutCounter_ms ≤ 100 + 1 :=
  ⟨by decide, ((counter_saturates ⟨100, false⟩ (by decide)).2 7 (List.replicate 300 Ev.tick)).1⟩

/-- C10: from a state with `timeoutCounter_ms > TIMEOUT_MS` and `timedOut = SET`, any number
of further interrupts without `ResetTimeout` keeps `timedOut = SET`; right after a
`ResetTimeout` the flag is still `SET` (and the counter is 0); the next interrupt sets
`timedOut = RESET` and `timeoutCounter_ms = 1`, does not assign to `speed` and leaves its
value as it was. -/
theorem recovery_from_timeout (cfg : Config) (s : State)
    (hc : s.timeoutCounter_ms > cfg.TIMEOUT_MS) (hf : s.timedOut = FlagStatus.SET) (n : Nat) :
    (ticks cfg n s).timedOut = FlagStatus.SET ∧
    (ResetTimeout (ticks cfg n s)).timedOut = FlagStatus.SET ∧
    (ResetTimeout (ticks cfg n s)).timeoutCounter_ms = 0 ∧
    (tick cfg (ResetTimeout (ticks cfg n s))).timedOut = FlagStatus.RESET ∧
    (tick cfg (ResetTimeout (ticks cfg n s))).timeoutCounter_ms = 1 ∧
    (tick cfg (ResetTimeout (ticks cfg n s))).speed = (ticks cfg n s).speed ∧
    storesSpeed cfg (ResetTimeout (ticks cfg n s)) = false := by
  have h := ticks_above_set cfg n s hc hf
  have hb := tick_below cfg (ResetTimeout (ticks cfg n s)) (by simp [ResetTimeout])
  refine ⟨h.2.1, h.2.1, rfl, hb.2.1, ?_, hb.2.2.1, hb.2.2.2⟩
  rw [hb.1]
  simp [ResetTimeout, U32]

/-- C10 at `TIMEOUT_MS = 100`, counter 101, speed 300, three further interrupts. -/
theorem recovery_from_timeout_witness :
    (tick ⟨100, false⟩ (ResetTimeout (ticks ⟨100, false⟩ 3
      ⟨0, 101, FlagStatus.SET, 300, 0⟩))).timedOut = FlagStatus.RESET ∧
    (tick ⟨100, false⟩ (ResetTimeout (ticks ⟨100, false⟩ 3
      ⟨0, 101, FlagStatus.SET, 300, 0⟩))).speed = 300 :=
  ⟨(recovery_from_timeout ⟨100, false⟩ ⟨0, 101, FlagStatus.SET, 300, 0⟩
      (by decide) rfl 3).2.2.2.1,
   ((recovery_from_timeout ⟨100, false⟩ ⟨0, 101, FlagStatus.SET, 300, 0⟩
      (by decide) rfl 3).2.2.2.2.2.1).trans
     (ticks_above_set ⟨100, false⟩ 3 ⟨0, 101, FlagStatus.SET, 300, 0⟩ (by decide) rfl).2.2⟩

/-! ## Latency of the timeout -/

theorem ticks_succ_last (cfg : Config) (n : Nat) (s : State) :
    ticks cfg (n + 1) s = tick cfg (ticks cfg n s) := by
  induction n generalizing s with
  | zero => rfl
  | succ n ih =>
    show ticks cfg (n + 1) (tick cfg s) = _
    rw [ih (tick cfg s)]
    rfl

/-- While the counter has not passed the threshold it counts the interrupts exactly,
the flag reads `RESET` after each of them and `speed` is not touched. -/
theorem ticks_counting (cfg : Config) (hT : cfg.TIMEOUT_MS + 1 < U32) (n : Nat) (s : State)
    (h : s.timeoutCounter_ms + n ≤ cfg.TIMEOUT_MS + 1) :
    (ticks cfg n s).timeoutCounter_ms = s.timeoutCounter_ms + n ∧
    (ticks cfg n s).speed = s.speed ∧
    (0 < n → (ticks cfg n s).timedOut = FlagStatus.RESET) := by
  induction n with
  | zero => exact ⟨rfl, rfl, fun h0 => absurd h0 (by decide)⟩
  | succ n ih =>
    obtain ⟨h1, h2, _⟩ := ih (by omega)
    have hb := tick_below cfg (ticks cfg n s) (by omega)
    rw [ticks_succ_last]
    refine ⟨?_, ?_, fun _ => hb.2.1⟩
    · rw [hb.1, h1]
      exact Nat.mod_eq_of_lt (by omega)
    · rw [hb.2.2.1, h2]

/-- C2 (as amended): with `TIMEOUT_MS = T < 2^32 - 1` and any initial speed `v`, after
`T + 1` interrupts from boot without `ResetTimeout` the counter reads `T + 1`, the flag
still reads `RESET` and `speed` is still `v`; interrupt `T + 2` assigns 0 to `speed`, and
the state after it has `timedOut = SET` and `speed = 0`. -/
theorem timeout_latency (cfg : Config) (hT : cfg.TIMEOUT_MS + 1 < U32) (v : Int) :
    (ticks cfg (cfg.TIMEOUT_MS + 1) (boot v)).timeoutCounter_ms = cfg.TIMEOUT_MS + 1 ∧
    (ticks cfg (cfg.TIMEOUT_MS + 1) (boot v)).timedOut = FlagStatus.RESET ∧
    (ticks cfg (cfg.TIMEOUT_MS + 1) (boot v)).speed = v ∧
    storesSpeed cfg (ticks cfg (cfg.TIMEOUT_MS + 1) (boot v)) = true ∧
    (ticks cfg (cfg.TIMEOUT_MS + 2) (boot v)).timedOut = FlagStatus.SET ∧
    (ticks cfg (cfg.TIMEOUT_MS + 2) (boot v)).speed = 0 := by
  obtain ⟨h1, h2, h3⟩ := ticks_counting cfg hT (cfg.TIMEOUT_MS + 1) (boot v)
    (by simp [boot])
  have hc : (ticks cfg (cfg.TIMEOUT_MS + 1) (boot v)).timeoutCounter_ms = cfg.TIMEOUT_MS + 1 := by
    rw [h1]; simp [boot]
  have hr := h3 (by omega)
  have ha := tick_above_reset cfg (ticks cfg (cfg.TIMEOUT_MS + 1) (boot v)) (by omega) hr
  refine ⟨hc, hr, h2, ha.2.2.2, ?_, ?_⟩
  · rw [ticks_succ_last]; exact ha.2.1
  · rw [ticks_succ_last]; exact ha.2.2.1

/-- C2 (as amended) at `TIMEOUT_MS = 100`, initial speed 5: the flag is `SET` and the speed
is 0 after interrupt 102. -/
theorem timeout_latency_witness :
    (100 + 1 < U32) ∧
    (ticks ⟨100, false⟩ 102 (boot 5)).timedOut = FlagStatus.SET ∧
    (ticks ⟨100, false⟩ 102 (boot 5)).speed = 0 :=
  ⟨by decide, (timeout_latency ⟨100, false⟩ (by decide) 5).2.2.2.2⟩

/-- C2 as stated fails: with `TIMEOUT_MS = 100` and initial speed 5, after 101 interrupts
without `ResetTimeout` the flag reads `RESET` and the speed is still 5. -/
theorem timeout_latency_counterexample :
    (ticks ⟨100, false⟩ 101 (boot 5)).timedOut = FlagStatus.RESET ∧
    (ticks ⟨100, false⟩ 101 (boot 5)).speed = 5 ∧
    ¬ ((ticks ⟨100, false⟩ 101 (boot 5)).timedOut = FlagStatus.SET ∧
       (ticks ⟨100, false⟩ 101 (boot 5)).speed = 0) := by
  obtain ⟨_, h2, h3⟩ := ticks_counting ⟨100, false⟩ (by decide) 101 (boot 5)
    (by simp [boot])
  have hr := h3 (by decide)
  refine ⟨hr, h2, ?_⟩
  rintro ⟨hs, _⟩
  rw [hr] at hs
  exact absurd hs (by decide)

/-! ## Runs as lists of events -/

theorem trace_mem (cfg : Config) (evs : List Ev) (s : State) (st : Step)
    (h : st ∈ trace cfg s evs) :
    st.post = (step cfg st.pre st.ev).1 ∧ st.acts = (step cfg st.pre st.ev).2 := by
  induction evs generalizing s with
  | nil => simp [trace] at h
  | cons e es ih =>
    simp only [trace, List.mem_cons] at h
    rcases h with h | h
    · subst h; exact ⟨rfl, rfl⟩
    · exact ih _ h

theorem trace_append (cfg : Config) (e1 e2 : List Ev) (s : State) :
    trace cfg s (e1 ++ e2) = trace cfg s e1 ++ trace cfg (exec cfg s e1) e2 := by
  induction e1 generalizing s with
  | nil => rfl
  | cons e es ih => simp [trace, exec, ih]

/-- What a recorded interrupt did, read off the handler alone. -/
theorem fired_tick (cfg : Config) (s : State) :
    storesSpeed cfg s = true ↔
      (s.timeoutCounter_ms > cfg.TIMEOUT_MS ∧ s.timedOut = FlagStatus.RESET) := by
  by_cases hc : s.timeoutCounter_ms ≤ cfg.TIMEOUT_MS
  · rw [(tick_below cfg s hc).2.2.2]
    constructor
    · intro h; exact absurd h (by decide)
    · rintro ⟨h, _⟩; omega
  · have hgt : s.timeoutCounter_ms > cfg.TIMEOUT_MS := by omega
    cases hf : s.timedOut with
    | RESET =>
      rw [(tick_above_reset cfg s hgt hf).2.2.2]
      exact ⟨fun _ => ⟨hgt, rfl⟩, fun _ => rfl⟩
    | SET =>
      rw [(tick_above_set cfg s hgt hf).2.2.2]
      constructor
      · intro h; exact absurd h (by decide)
      · rintro ⟨_, h⟩; exact absurd h (by decide)

/-! ## No spurious timeout -/

theorem no_spurious_aux (cfg : Config) (evs : List Ev) (s : State) (r : Nat)
    (hs : s.timeoutCounter_ms ≤ r) (hb : boundedRuns cfg.TIMEOUT_MS r evs = true) :
    ∀ st ∈ trace cfg s evs, st.ev = Ev.tick →
      st.post.timedOut = FlagStatus.RESET ∧ st.fired = false ∧ st.post.speed = st.pre.speed := by
  induction evs generalizing s r with
  | nil => intro st h; simp [trace] at h
  | cons e es ih =>
    intro st h
    simp only [trace, List.mem_cons] at h
    cases e with
    | tick =>
      simp only [boundedRuns, Bool.and_eq_true, decide_eq_true_eq] at hb
      have hlow := tick_below cfg s (by omega)
      rcases h with h | h
      · subst h
        intro _
        exact ⟨hlow.2.1, hlow.2.2.2, hlow.2.2.1⟩
      · refine ih (tick cfg s) (r + 1) ?_ hb.2 st h
        rw [hlow.1]
        exact le_trans (Nat.mod_le _ _) (by omega)
    | reset =>
      rcases h with h | h
      · subst h; intro h; simp at h
      · exact ih (ResetTimeout s) 0 (by simp [ResetTimeout]) hb st h
    | write v =>
      rcases h with h | h
      · subst h; intro h; simp at h
      · exact ih (step cfg s (Ev.write v)).1 r hs hb st h

/-- C3: in every interleaving of interrupts, `ResetTimeout` calls and speed writes from boot
in which no more than `TIMEOUT_MS` interrupts in a row occur without a `ResetTimeout`
call, `timedOut` reads `RESET` after every interrupt and no interrupt assigns to `speed`
(its value is the same before and after the handler). -/
theorem no_spurious_timeout (cfg : Config) (v : Int) (evs : List Ev)
    (hb : boundedRuns cfg.TIMEOUT_MS 0 evs = true) :
    ∀ st ∈ trace cfg (boot v) evs, st.ev = Ev.tick →
      st.post.timedOut = FlagStatus.RESET ∧ st.fired = false ∧ st.post.speed = st.pre.speed :=
  no_spurious_aux cfg evs (boot v) 0 (by simp [boot]) hb

/-- C3 at `TIMEOUT_MS = 100`: 50 interrupts, one `ResetTimeout`, 49 more interrupts. -/
theorem no_spurious_timeout_witness :
    boundedRuns 100 0
      (List.replicate 50 Ev.tick ++ Ev.reset :: List.replicate 49 Ev.tick) = true ∧
    ∀ st ∈ trace ⟨100, false⟩ (boot 5)
        (List.replicate 50 Ev.tick ++ Ev.reset :: List.replicate 49 Ev.tick),
      st.ev = Ev.tick →
      st.post.timedOut = FlagStatus.RESET ∧ st.fired = false ∧ st.post.speed = st.pre.speed :=
  ⟨by decide, no_spurious_timeout ⟨100, false⟩ 5 _ (by decide)⟩

/-! ## One-shot recovery action -/

theorem noReset_append (e1 e2 : List Ev) (h : noReset (e1 ++ e2) = true) :
    noReset e1 = true ∧ noReset e2 = true := by
  induction e1 with
  | nil => exact ⟨rfl, h⟩
  | cons e es ih =>
    cases e with
    | tick => exact ih h
    | reset => simp [noReset] at h
    | write v => exact ih h

theorem step_local (cfg : Config) (st : Step)
    (hp : st.post = (step cfg st.pre st.ev).1) (ha : st.acts = (step cfg st.pre st.ev).2) :
    (st.fired = true ↔ (st.ev = Ev.tick ∧ st.pre.timedOut = FlagStatus.RESET ∧
      st.pre.timeoutCounter_ms > cfg.TIMEOUT_MS)) ∧
    (st.ev = Ev.tick →
      (st.post.timedOut = FlagStatus.SET ↔ st.pre.timeoutCounter_ms > cfg.TIMEOUT_MS)) ∧
    (st.fired = true → st.post.speed = 0) := by
  obtain ⟨pre, ev, post, acts⟩ := st
  simp only at hp ha
  subst hp ha
  cases ev with
  | tick =>
    have hfi : ∀ p : State, Step.fired ⟨pre, Ev.tick, p, (step cfg pre Ev.tick).2⟩
        = storesSpeed cfg pre := fun _ => rfl
    have hpo : (step cfg pre Ev.tick).1 = tick cfg pre := rfl
    simp only [hfi, hpo, true_and, forall_const]
    have hft := fired_tick cfg pre
    refine ⟨?_, ?_, ?_⟩
    · rw [hft]; exact and_comm
    · by_cases hc : pre.timeoutCounter_ms ≤ cfg.TIMEOUT_MS
      · rw [(tick_below cfg pre hc).2.1]
        constructor
        · intro h; exact absurd h (by decide)
        · intro h; omega
      · have hgt : pre.timeoutCounter_ms > cfg.TIMEOUT_MS := by omega
        cases hf : pre.timedOut with
        | RESET => rw [(tick_above_reset cfg pre hgt hf).2.1]; exact ⟨fun _ => hgt, fun _ => rfl⟩
        | SET => rw [(tick_above_set cfg pre hgt hf).2.1]; exact ⟨fun _ => hgt, fun _ => rfl⟩
    · intro h
      obtain ⟨hgt, hf⟩ := hft.1 h
      exact (tick_above_reset cfg pre hgt hf).2.2.1
  | reset => simp [Step.fired, step]
  | write v => simp [Step.fired, step]

/-- One interrupt moves the supervisor from its state after `k` interrupts to its state
after `k + 1`; it assigns to `speed` exactly when `k = TIMEOUT_MS + 1`. -/
theorem tick_inv (cfg : Config) (hT : cfg.TIMEOUT_MS + 1 < U32) (k : Nat) (s : State)
    (hi : SupInv cfg k s) :
    SupInv cfg (k + 1) (tick cfg s) ∧
    (storesSpeed cfg s = true ↔ k = cfg.TIMEOUT_MS + 1) ∧
    (cfg.TIMEOUT_MS + 2 ≤ k →
      (tick cfg s).timedOut = FlagStatus.SET ∧ (tick cfg s).speed = s.speed) := by
  obtain ⟨hc, hf⟩ := hi
  by_cases hk : k ≤ cfg.TIMEOUT_MS
  · have hck : s.timeoutCounter_ms = k := by rw [hc]; omega
    obtain ⟨h1, h2, _, h4⟩ := tick_below cfg s (by omega)
    refine ⟨⟨?_, ?_⟩, ?_, fun h => by omega⟩
    · rw [h1, hck, Nat.mod_eq_of_lt (by omega)]; omega
    · rw [h2]; exact ⟨fun _ => by omega, fun _ => rfl⟩
    · rw [h4]
      constructor
      · intro h; exact absurd h (by decide)
      · intro h; omega
  · have hck : s.timeoutCounter_ms = cfg.TIMEOUT_MS + 1 := by rw [hc]; omega
    by_cases hk2 : k = cfg.TIMEOUT_MS + 1
    · have hr : s.timedOut = FlagStatus.RESET := hf.2 (by omega)
      obtain ⟨h1, h2, _, h4⟩ := tick_above_reset cfg s (by omega) hr
      refine ⟨⟨?_, ?_⟩, ?_, fun h => by omega⟩
      · rw [h1, hck]; omega
      · rw [h2]
        constructor
        · intro h; exact absurd h (by decide)
        · intro h; omega
      · rw [h4]; exact ⟨fun _ => hk2, fun _ => rfl⟩
    · have hs : s.timedOut = FlagStatus.SET := by
        cases hst : s.timedOut with
        | RESET => have := hf.1 hst; omega
        | SET => rfl
      obtain ⟨h1, h2, h3, h4⟩ := tick_above_set cfg s (by omega) hs
      refine ⟨⟨?_, ?_⟩, ?_, fun _ => ⟨h2, h3⟩⟩
      · rw [h1, hck]; omega
      · rw [h2]
        constructor
        · intro h; exact absurd h (by decide)
        · intro h; omega
      · rw [h4]
        constructor
        · intro h; exact absurd h (by decide)
        · intro h; omega

/-- A run without `ResetTimeout` started after `k` interrupts: how often `speed` is
assigned, where the supervisor ends up, and what happens once interrupt
`TIMEOUT_MS + 2` is behind. -/
theorem trace_one_shot (cfg : Config) (hT : cfg.TIMEOUT_MS + 1 < U32) (evs : List Ev)
    (s : State) (k : Nat) (hn : noReset evs = true) (hi : SupInv cfg k s) :
    (trace cfg s evs).countP Step.fired + (if cfg.TIMEOUT_MS + 2 ≤ k then 1 else 0)
      = (if cfg.TIMEOUT_MS + 2 ≤ k + tickCount evs then 1 else 0) ∧
    SupInv cfg (k + tickCount evs) (exec cfg s evs) ∧
    (cfg.TIMEOUT_MS + 2 ≤ k → ∀ st ∈ trace cfg s evs, st.ev = Ev.tick →
      st.post.timedOut = FlagStatus.SET ∧ st.post.speed = st.pre.speed ∧ st.fired = false) := by
  induction evs generalizing s k with
  | nil =>
    refine ⟨by simp [trace, tickCount], hi, ?_⟩
    intro _ st h
    simp [trace] at h
  | cons e es ih =>
    cases e with
    | tick =>
      obtain ⟨hi2, hfire, hlate⟩ := tick_inv cfg hT k s hi
      obtain ⟨ih1, ih2, ih3⟩ := ih (tick cfg s) (k + 1) hn hi2
      have hfi : ∀ p : State, Step.fired ⟨s, Ev.tick, p, (step cfg s Ev.tick).2⟩
          = storesSpeed cfg s := fun _ => rfl
      have hpo : (step cfg s Ev.tick).1 = tick cfg s := rfl
      have htc : tickCount (Ev.tick :: es) = tickCount es + 1 := rfl
      have hkk : k + (tickCount es + 1) = k + 1 + tickCount es := by omega
      refine ⟨?_, ?_, ?_⟩
      · simp only [trace, List.countP_cons, hfi, hpo, htc, hkk]
        by_cases hk : k = cfg.TIMEOUT_MS + 1
        · rw [hfire.2 hk]
          simp only [if_true]
          split_ifs at ih1 ⊢ <;> omega
        · have hff : storesSpeed cfg s = false := by
            rw [Bool.eq_false_iff]; exact fun h => hk (hfire.1 h)
          rw [hff]
          simp only [Bool.false_eq_true, if_false]
          split_ifs at ih1 ⊢ <;> omega
      · rw [htc, hkk]; exact ih2
      · intro hk st hst
        simp only [trace, List.mem_cons] at hst
        rcases hst with h | h
        · subst h
          intro _
          have hff : storesSpeed cfg s = false := by
            rw [Bool.eq_false_iff]; intro h; have := hfire.1 h; omega
          exact ⟨(hlate hk).1, (hlate hk).2, hff⟩
        · exact ih3 (by omega) st h
    | reset => simp [noReset] at hn
    | write v =>
      have hi2 : SupInv cfg k (step cfg s (Ev.write v)).1 := hi
      obtain ⟨ih1, ih2, ih3⟩ := ih (step cfg s (Ev.write v)).1 k hn hi2
      have htc : tickCount (Ev.write v :: es) = tickCount es := rfl
      refine ⟨?_, ?_, ?_⟩
      · rw [htc, ← ih1]
        simp [trace, List.countP_cons, Step.fired, step]
      · rw [htc]; exact ih2
      · intro hk st hst
        simp only [trace, List.mem_cons] at hst
        rcases hst with h | h
        · subst h; intro h; simp at h
        · exact ih3 hk st h

theorem boot_inv (cfg : Config) (v : Int) : SupInv cfg 0 (boot v) := by
  constructor
  · simp [boot]
  · simp [boot]

/-- The facts of the one-shot behaviour when the threshold is below `2^32 - 1`. -/
theorem one_shot_core (cfg : Config) (hT : cfg.TIMEOUT_MS + 1 < U32) (v : Int)
    (e1 e2 : List Ev) (hn : noReset (e1 ++ e2) = true) :
    (trace cfg (boot v) (e1 ++ e2)).countP Step.fired ≤ 1 ∧
    ((trace cfg (boot v) (e1 ++ e2)).countP Step.fired = 1 ↔
      cfg.TIMEOUT_MS + 2 ≤ tickCount (e1 ++ e2)) ∧
    ((trace cfg (boot v) (e1 ++ e2)).countP Step.fired = 1 ↔
      ∃ st ∈ trace cfg (boot v) (e1 ++ e2),
        st.ev = Ev.tick ∧ st.pre.timeoutCounter_ms > cfg.TIMEOUT_MS) ∧
    (∀ st ∈ trace cfg (boot v) (e1 ++ e2),
      (st.fired = true ↔ (st.ev = Ev.tick ∧ st.pre.timedOut = FlagStatus.RESET ∧
        st.post.timedOut = FlagStatus.SET)) ∧
      (st.fired = true ↔ (st.ev = Ev.tick ∧ st.pre.timedOut = FlagStatus.RESET ∧
        st.pre.timeoutCounter_ms > cfg.TIMEOUT_MS)) ∧
      (st.fired = true → st.post.speed = 0)) ∧
    trace cfg (boot v) (e1 ++ e2)
      = trace cfg (boot v) e1 ++ trace cfg (exec cfg (boot v) e1) e2 ∧
    ((∃ st ∈ trace cfg (boot v) e1, st.fired = true) →
      ∀ st ∈ trace cfg (exec cfg (boot v) e1) e2, st.ev = Ev.tick →
        st.post.timedOut = FlagStatus.SET ∧ st.post.speed = st.pre.speed ∧
        st.fired = false) := by
  obtain ⟨hc, _, _⟩ := trace_one_shot cfg hT (e1 ++ e2) (boot v) 0 hn (boot_inv cfg v)
  obtain ⟨hn1, hn2⟩ := noReset_append e1 e2 hn
  obtain ⟨hc1, hi1, _⟩ := trace_one_shot cfg hT e1 (boot v) 0 hn1 (boot_inv cfg v)
  simp only [Nat.zero_add] at hc hc1 hi1
  have hz : ¬ cfg.TIMEOUT_MS + 2 ≤ 0 := by omega
  simp only [hz, if_false, Nat.add_zero] at hc hc1
  have hloc : ∀ st ∈ trace cfg (boot v) (e1 ++ e2),
      (st.fired = true ↔ (st.ev = Ev.tick ∧ st.pre.timedOut = FlagStatus.RESET ∧
        st.post.timedOut = FlagStatus.SET)) ∧
      (st.fired = true ↔ (st.ev = Ev.tick ∧ st.pre.timedOut = FlagStatus.RESET ∧
        st.pre.timeoutCounter_ms > cfg.TIMEOUT_MS)) ∧
      (st.fired = true → st.post.speed = 0) := by
    intro st hst
    obtain ⟨hp, ha⟩ := trace_mem cfg _ _ st hst
    obtain ⟨l1, l2, l3⟩ := step_local cfg st hp ha
    refine ⟨?_, l1, l3⟩
    rw [l1]
    constructor
    · rintro ⟨he, hr, hg⟩; exact ⟨he, hr, (l2 he).2 hg⟩
    · rintro ⟨he, hr, hg⟩; exact ⟨he, hr, (l2 he).1 hg⟩
  have hcount : (trace cfg (boot v) (e1 ++ e2)).countP Step.fired = 1 ↔
      cfg.TIMEOUT_MS + 2 ≤ tickCount (e1 ++ e2) := by
    rw [hc]; split_ifs with h <;> simp [h]
  refine ⟨?_, hcount, ?_, hloc, trace_append cfg e1 e2 (boot v), ?_⟩
  · rw [hc]; split_ifs <;> omega
  · constructor
    · intro h1
      have hpos : 0 < (trace cfg (boot v) (e1 ++ e2)).countP Step.fired := by omega
      obtain ⟨st, hst, hf⟩ := List.countP_pos_iff.1 hpos
      exact ⟨st, hst, ((hloc st hst).2.1.1 hf).1, ((hloc st hst).2.1.1 hf).2.2⟩
    · rintro ⟨st, hst, he, hg⟩
      rw [hcount]
      by_contra hlt
      -- with fewer than TIMEOUT_MS + 2 interrupts the counter seen by each is small
      have key : ∀ (evs : List Ev) (s : State) (k : Nat), noReset evs = true →
          SupInv cfg k s → k + tickCount evs < cfg.TIMEOUT_MS + 2 →
          ∀ st ∈ trace cfg s evs, st.ev = Ev.tick →
            st.pre.timeoutCounter_ms ≤ cfg.TIMEOUT_MS := by
        intro evs
        induction evs with
        | nil => intro s k _ _ _ st h; simp [trace] at h
        | cons e es ih =>
          intro s k hn hi hk st h
          simp only [trace, List.mem_cons] at h
          cases e with
          | tick =>
            have htc : tickCount (Ev.tick :: es) = tickCount es + 1 := rfl
            rw [htc] at hk
            rcases h with h | h
            · subst h; intro _
              show s.timeoutCounter_ms ≤ _
              rw [hi.1]; omega
            · exact ih (tick cfg s) (k + 1) hn (tick_inv cfg hT k s hi).1 (by omega) st h
          | reset => simp [noReset] at hn
          | write w =>
            rcases h with h | h
            · subst h; intro h; simp at h
            · exact ih (step cfg s (Ev.write w)).1 k hn hi hk st h
      have := key (e1 ++ e2) (boot v) 0 hn (boot_inv cfg v) (by omega) st hst he
      omega
  · rintro ⟨st, hst, hf⟩
    have hpos : 0 < (trace cfg (boot v) e1).countP Step.fired :=
      List.countP_pos_iff.2 ⟨st, hst, hf⟩
    have hk : cfg.TIMEOUT_MS + 2 ≤ tickCount e1 := by
      by_contra hlt
      rw [hc1, if_neg hlt] at hpos
      exact absurd hpos (by decide)
    exact (trace_one_shot cfg hT e2 (exec cfg (boot v) e1) (tickCount e1) hn2 hi1).2.2 hk

theorem step_counter_lt (cfg : Config) (s : State) (e : Ev) (h : s.timeoutCounter_ms < U32) :
    (step cfg s e).1.timeoutCounter_ms < U32 := by
  cases e with
  | tick =>
    show (tick cfg s).timeoutCounter_ms < U32
    by_cases hc : s.timeoutCounter_ms ≤ cfg.TIMEOUT_MS
    · rw [(tick_below cfg s hc).1]
      exact Nat.mod_lt _ (by decide)
    · have hb := hornBlock_fields cfg (timeoutBlock cfg s).1
      simp only [tick, TIMER13_IRQHandler]
      rw [hb.1]
      have hgt : s.timeoutCounter_ms > cfg.TIMEOUT_MS := by omega
      simp only [timeoutBlock, hgt, if_true]
      split_ifs <;> exact h
  | reset => exact (by decide : 0 < U32)
  | write v => exact h

theorem trace_counter_lt (cfg : Config) (evs : List Ev) (s : State)
    (h : s.timeoutCounter_ms < U32) :
    ∀ st ∈ trace cfg s evs, st.pre.timeoutCounter_ms < U32 := by
  induction evs generalizing s with
  | nil => intro st hst; simp [trace] at hst
  | cons e es ih =>
    intro st hst
    simp only [trace, List.mem_cons] at hst
    rcases hst with hst | hst
    · subst hst; exact h
    · exact ih _ (step_counter_lt cfg s e h) st hst

/-- C1 (as amended): take any run from boot (any threshold, any initial speed) made of 1 ms
interrupts and of stores to `speed` by its owner, with no `ResetTimeout` call, and cut it
anywhere into `e1` followed by `e2`.
* The handler assigns 0 to `speed` on at most one interrupt of the run, and on exactly one
  if and only if the run contains an interrupt taken with the counter already above
  `TIMEOUT_MS`; for `TIMEOUT_MS < 2^32 - 1` this is the case if and only if the run has at
  least `TIMEOUT_MS + 2` interrupts, one more than it takes the counter to pass
  `TIMEOUT_MS`.
* The interrupt that does it is the one on which `timedOut` goes from `RESET` to `SET`
  (equivalently: taken with `timedOut = RESET` and the counter above `TIMEOUT_MS`),
  and `speed` is 0 after it.
* If that interrupt lies in `e1`, every interrupt of `e2` leaves `timedOut = SET`, does not
  assign to `speed`, and leaves in `speed` whatever value it found there. -/
theorem one_shot_timeout (cfg : Config) (v : Int)
    (e1 e2 : List Ev) (hn : noReset (e1 ++ e2) = true) :
    (trace cfg (boot v) (e1 ++ e2)).countP Step.fired ≤ 1 ∧
    ((trace cfg (boot v) (e1 ++ e2)).countP Step.fired = 1 ↔
      ∃ st ∈ trace cfg (boot v) (e1 ++ e2),
        st.ev = Ev.tick ∧ st.pre.timeoutCounter_ms > cfg.TIMEOUT_MS) ∧
    (cfg.TIMEOUT_MS + 1 < U32 →
      ((trace cfg (boot v) (e1 ++ e2)).countP Step.fired = 1 ↔
        cfg.TIMEOUT_MS + 2 ≤ tickCount (e1 ++ e2))) ∧
    (∀ st ∈ trace cfg (boot v) (e1 ++ e2),
      (st.fired = true ↔ (st.ev = Ev.tick ∧ st.pre.timedOut = FlagStatus.RESET ∧
        st.post.timedOut = FlagStatus.SET)) ∧
      (st.fired = true ↔ (st.ev = Ev.tick ∧ st.pre.timedOut = FlagStatus.RESET ∧
        st.pre.timeoutCounter_ms > cfg.TIMEOUT_MS)) ∧
      (st.fired = true → st.post.speed = 0)) ∧
    trace cfg (boot v) (e1 ++ e2)
      = trace cfg (boot v) e1 ++ trace cfg (exec cfg (boot v) e1) e2 ∧
    ((∃ st ∈ trace cfg (boot v) e1, st.fired = true) →
      ∀ st ∈ trace cfg (exec cfg (boot v) e1) e2, st.ev = Ev.tick →
        st.post.timedOut = FlagStatus.SET ∧ st.post.speed = st.pre.speed ∧
        st.fired = false) := by
  by_cases hT : cfg.TIMEOUT_MS + 1 < U32
  · obtain ⟨c1, c2, c3, c4, c5, c6⟩ := one_shot_core cfg hT v e1 e2 hn
    exact ⟨c1, c3, fun _ => c2, c4, c5, c6⟩
  · have happ := trace_append cfg e1 e2 (boot v)
    have hloc : ∀ st ∈ trace cfg (boot v) (e1 ++ e2),
        (st.fired = true ↔ (st.ev = Ev.tick ∧ st.pre.timedOut = FlagStatus.RESET ∧
          st.post.timedOut = FlagStatus.SET)) ∧
        (st.fired = true ↔ (st.ev = Ev.tick ∧ st.pre.timedOut = FlagStatus.RESET ∧
          st.pre.timeoutCounter_ms > cfg.TIMEOUT_MS)) ∧
        (st.fired = true → st.post.speed = 0) := by
      intro st hst
      obtain ⟨hp, ha⟩ := trace_mem cfg _ _ st hst
      obtain ⟨l1, l2, l3⟩ := step_local cfg st hp ha
      refine ⟨?_, l1, l3⟩
      rw [l1]
      constructor
      · rintro ⟨he, hr, hg⟩; exact ⟨he, hr, (l2 he).2 hg⟩
      · rintro ⟨he, hr, hg⟩; exact ⟨he, hr, (l2 he).1 hg⟩
    have hsmall : ∀ st ∈ trace cfg (boot v) (e1 ++ e2),
        ¬ st.pre.timeoutCounter_ms > cfg.TIMEOUT_MS := by
      intro st hst
      have := trace_counter_lt cfg (e1 ++ e2) (boot v) (by decide : (0 : Nat) < U32) st hst
      omega
    have hnever : ∀ st ∈ trace cfg (boot v) (e1 ++ e2), ¬ st.fired = true := by
      intro st hst hf
      exact hsmall st hst ((hloc st hst).2.1.1 hf).2.2
    have hzero : (trace cfg (boot v) (e1 ++ e2)).countP Step.fired = 0 :=
      List.countP_eq_zero.2 hnever
    refine ⟨by omega, ?_, fun h => absurd h hT, hloc, happ, ?_⟩
    · constructor
      · intro h; omega
      · rintro ⟨st, hst, _, hg⟩; exact absurd hg (hsmall st hst)
    · rintro ⟨st, hst, hf⟩
      exact absurd hf (hnever st (by rw [happ]; exact List.mem_append_left _ hst))

/-- C1 (as amended) at `TIMEOUT_MS = 2`, initial speed 5: four interrupts, then the owner stores 9 and
two more interrupts follow; the handler assigns to `speed` exactly once in the run. -/
theorem one_shot_timeout_witness :
    noReset ([Ev.tick, Ev.tick, Ev.tick, Ev.tick] ++ [Ev.write 9, Ev.tick, Ev.tick]) = true ∧
    (trace ⟨2, false⟩ (boot 5)
      ([Ev.tick, Ev.tick, Ev.tick, Ev.tick] ++ [Ev.write 9, Ev.tick, Ev.tick])).countP
        Step.fired = 1 :=
  ⟨by decide,
    ((one_shot_timeout ⟨2, false⟩ 5 [Ev.tick, Ev.tick, Ev.tick, Ev.tick]
      [Ev.write 9, Ev.tick, Ev.tick] (by decide)).2.2.1 (by decide)).2 (by decide)⟩

/-- C1 as stated fails: with `TIMEOUT_MS = 100` and initial speed 5, a run of 101
interrupts without `ResetTimeout` is long enough for the counter to exceed `TIMEOUT_MS`
(it reads 101 at the end), yet the handler has assigned to `speed` on no interrupt of
the run, not on exactly one. -/
theorem one_shot_timeout_counterexample :
    noReset (List.replicate 101 Ev.tick) = true ∧
    (exec ⟨100, false⟩ (boot 5) (List.replicate 101 Ev.tick)).timeoutCounter_ms = 101 ∧
    (exec ⟨100, false⟩ (boot 5) (List.replicate 101 Ev.tick)).timeoutCounter_ms > 100 ∧
    (trace ⟨100, false⟩ (boot 5) (List.replicate 101 Ev.tick)).countP Step.fired = 0 ∧
    ¬ ((trace ⟨100, false⟩ (boot 5) (List.replicate 101 Ev.tick)).countP Step.fired = 1) := by
  have hn : noReset (List.replicate 101 Ev.tick) = true := by decide
  have htc : tickCount (List.replicate 101 Ev.tick) = 101 := by decide
  obtain ⟨hc, hi, _⟩ := trace_one_shot ⟨100, false⟩ (by decide)
    (List.replicate 101 Ev.tick) (boot 5) 0 hn (boot_inv ⟨100, false⟩ 5)
  rw [htc] at hc hi
  have hcnt : (trace ⟨100, false⟩ (boot 5) (List.replicate 101 Ev.tick)).countP Step.fired
      = 0 := by
    simpa using hc
  have hctr : (exec ⟨100, false⟩ (boot 5) (List.replicate 101 Ev.tick)).timeoutCounter_ms
      = 101 := by
    rw [hi.1]; decide
  refine ⟨hn, hctr, by rw [hctr]; decide, hcnt, ?_⟩
  rw [hcnt]
  decide

/-! ## Horn ceiling (SLAVE variant) -/

theorem timeoutBlock_horn (cfg : Config) (s : State) :
    (timeoutBlock cfg s).1.hornCounter_ms = s.hornCounter_ms ∧
    Action.SetUpperLEDMaster FlagStatus.RESET ∉ (timeoutBlock cfg s).2 := by
  unfold timeoutBlock
  split_ifs <;> simp

/-- One interrupt on the SLAVE variant: below 2000 the horn counter is incremented and
`SetUpperLEDMaster(RESET)` is not called; from 2000 on the counter is left alone and the
call is made. -/
theorem tick_horn (cfg : Config) (hS : cfg.SLAVE = true) (s : State) :
    (s.hornCounter_ms < 2000 →
      (tick cfg s).hornCounter_ms = s.hornCounter_ms + 1 ∧ forcesHornOff cfg s = false) ∧
    (2000 ≤ s.hornCounter_ms →
      (tick cfg s).hornCounter_ms = s.hornCounter_ms ∧ forcesHornOff cfg s = true) := by
  obtain ⟨h1, h2⟩ := timeoutBlock_horn cfg s
  constructor
  · intro h
    have hlt : (timeoutBlock cfg s).1.hornCounter_ms < 2000 := by rw [h1]; exact h
    have hnot : ¬ (timeoutBlock cfg s).1.hornCounter_ms ≥ 2000 := by omega
    constructor
    · simp only [tick, TIMER13_IRQHandler, hornBlock, hS, if_true, hnot, if_false, hlt]
      rw [h1]
      exact Nat.mod_eq_of_lt (by unfold U32; omega)
    · rw [Bool.eq_false_iff]
      intro hc
      simp only [forcesHornOff, TIMER13_IRQHandler, hornBlock, hS, if_true, hnot, if_false,
        hlt, List.any_eq_true, decide_eq_true_eq] at hc
      obtain ⟨a, ha, hae⟩ := hc
      subst hae
      simp at ha
      exact h2 ha
  · intro h
    have hge : (timeoutBlock cfg s).1.hornCounter_ms ≥ 2000 := by rw [h1]; exact h
    constructor
    · simp only [tick, TIMER13_IRQHandler, hornBlock, hS, if_true, hge]
      exact h1
    · simp [forcesHornOff, TIMER13_IRQHandler, hornBlock, hS, hge]

/-- The horn counter over `n` interrupts from a state where it is 0. -/
theorem horn_run (cfg : Config) (hS : cfg.SLAVE = true) (s : State)
    (h0 : s.hornCounter_ms = 0) (n : Nat) :
    (ticks cfg n s).hornCounter_ms = min n 2000 := by
  induction n with
  | zero => simpa [ticks] using h0
  | succ n ih =>
    rw [ticks_succ_last]
    obtain ⟨hlo, hhi⟩ := tick_horn cfg hS (ticks cfg n s)
    by_cases hn : n < 2000
    · rw [(hlo (by rw [ih]; omega)).1, ih]; omega
    · rw [(hhi (by rw [ih]; omega)).1, ih]; omega

/-- C8 (as amended): on the SLAVE variant, starting from `hornCounter_ms = 0` and with nobody
resetting the counter, after `n` interrupts the counter reads `min n 2000` (so it never
exceeds 2000), and interrupt number `n + 1` calls `SetUpperLEDMaster(RESET)` exactly when
`n ≥ 2000`: the first 2000 interrupts only count, the call is first made on interrupt 2001
and then on every later one. -/
theorem horn_ceiling (cfg : Config) (hS : cfg.SLAVE = true) (s : State)
    (h0 : s.hornCounter_ms = 0) (n : Nat) :
    (ticks cfg n s).hornCounter_ms = min n 2000 ∧
    (ticks cfg n s).hornCounter_ms ≤ 2000 ∧
    (forcesHornOff cfg (ticks cfg n s) = true ↔ 2000 ≤ n) := by
  have hr := horn_run cfg hS s h0 n
  obtain ⟨hlo, hhi⟩ := tick_horn cfg hS (ticks cfg n s)
  refine ⟨hr, by rw [hr]; omega, ?_⟩
  by_cases hn : n < 2000
  · rw [(hlo (by rw [hr]; omega)).2]
    constructor
    · intro h; exact absurd h (by decide)
    · intro h; omega
  · rw [(hhi (by rw [hr]; omega)).2]
    exact ⟨fun _ => by omega, fun _ => rfl⟩

/-- C8 (as amended) on the SLAVE variant from boot: interrupt 2001 makes the call. -/
theorem horn_ceiling_witness :
    forcesHornOff ⟨100, true⟩ (ticks ⟨100, true⟩ 2000 (boot 0)) = true ∧
    (ticks ⟨100, true⟩ 2000 (boot 0)).hornCounter_ms ≤ 2000 :=
  ⟨(horn_ceiling ⟨100, true⟩ rfl (boot 0) rfl 2000).2.2.2 (by decide),
   (horn_ceiling ⟨100, true⟩ rfl (boot 0) rfl 2000).2.1⟩

/-- C8 as stated fails: on the SLAVE variant from boot, interrupt number 2000 (the one taken
after 1999 earlier ones, with the counter at 1999) does not call
`SetUpperLEDMaster(RESET)`; it only moves the counter to 2000. -/
theorem horn_ceiling_counterexample :
    forcesHornOff ⟨100, true⟩ (ticks ⟨100, true⟩ 1999 (boot 0)) = false ∧
    (ticks ⟨100, true⟩ 1999 (boot 0)).hornCounter_ms = 1999 ∧
    (ticks ⟨100, true⟩ 2000 (boot 0)).hornCounter_ms = 2000 := by
  have h1 := horn_run ⟨100, true⟩ rfl (boot 0) rfl 1999
  have h2 := horn_run ⟨100, true⟩ rfl (boot 0) rfl 2000
  have h1q : (ticks ⟨100, true⟩ 1999 (boot 0)).hornCounter_ms = 1999 := by rw [h1]; decide
  refine ⟨?_, h1q, by rw [h2]; decide⟩
  exact ((tick_horn ⟨100, true⟩ rfl (ticks ⟨100, true⟩ 1999 (boot 0))).1
    (by rw [h1q]; decide)).2

/-! ## Wrap-safe delay -/

/-- The wrapped difference recovers the number of elapsed ticks, whatever the start. -/
theorem sub32_add (c e : Nat) (he : e < U32) :
    sub32 ((c + e) % U32) c = e := by
  unfold sub32 U32 at *
  omega

theorem DelayLoop_spec (c n : Nat) (hn : n < U32) (sched : List Bool)
    (s : State) (e : Nat) (he : e ≤ n) (hs : s.msTicks = (c + e) % U32) :
    (n ≤ e + sched.count true →
      DelayLoop c n s e sched = some (⟨(c + n) % U32, s.timeoutCounter_ms, s.timedOut,
        s.speed, s.hornCounter_ms⟩, n)) ∧
    (e + sched.count true < n → DelayLoop c n s e sched = none) := by
  have hsub : sub32 s.msTicks c = e := by rw [hs]; exact sub32_add c e (by omega)
  induction sched generalizing s e with
  | nil =>
    simp only [DelayLoop, hsub, List.count_nil, Nat.add_zero]
    constructor
    · intro h
      have hen : e = n := by omega
      subst hen
      rw [if_neg (by omega)]
      cases s
      simp_all
    · intro h
      rw [if_pos h]
  | cons b rest ih =>
    simp only [DelayLoop, hsub]
    by_cases hlt : e < n
    · rw [if_pos hlt]
      cases b with
      | true =>
        have hs2 : (SysTick_Handler s).msTicks = (c + (e + 1)) % U32 := by
          show (s.msTicks + 1) % U32 = _
          rw [hs]; unfold U32; omega
        have hsub2 : sub32 (SysTick_Handler s).msTicks c = e + 1 := by
          rw [hs2]; exact sub32_add c (e + 1) (by omega)
        have := ih (SysTick_Handler s) (e + 1) (by omega) hs2 hsub2
        simp only [if_true, List.count_cons_self]
        constructor
        · intro h; exact this.1 (by omega)
        · intro h; exact this.2 (by omega)
      | false =>
        have := ih s e he hs hsub
        simp only [Bool.false_eq_true, if_false]
        have hcnt : List.count true (false :: rest) = List.count true rest := by simp
        rw [hcnt]
        exact this
    · have hen : e = n := by omega
      subst hen
      rw [if_neg hlt]
      constructor
      · intro _
        cases s
        simp_all
      · intro h; omega

/-- C5: for every 32-bit start value of `msTicks` and every 32-bit `n`, under any schedule
of the tick interrupt (at most one tick per pass of the loop):
* if the schedule holds at least `n` ticks, `Delay(n)` returns, exactly `n` ticks went by
  during the call, only `msTicks` changed and it reads `(start + n) mod 2^32`;
* if it holds fewer than `n` ticks, `Delay(n)` has not returned when the schedule ends;
* the wrapped difference `(msTicks - start) mod 2^32` tested by the loop equals the number
  `j` of ticks elapsed, for every `j < 2^32`, also when `start + j` passes `2^32 - 1`;
* `Delay(0)` returns at once, with no tick consumed. -/
theorem Delay_wrap_safe (s : State) (n : Nat) (hs : s.msTicks < U32) (hn : n < U32)
    (sched : List Bool) :
    (n ≤ sched.count true →
      Delay n s sched = some (⟨(s.msTicks + n) % U32, s.timeoutCounter_ms, s.timedOut,
        s.speed, s.hornCounter_ms⟩, n)) ∧
    (sched.count true < n → Delay n s sched = none) ∧
    (∀ j, j < U32 → sub32 ((s.msTicks + j) % U32) s.msTicks = j) ∧
    Delay 0 s sched = some (s, 0) := by
  have hspec := DelayLoop_spec s.msTicks n hn sched s 0 (Nat.zero_le n)
    (by rw [Nat.add_zero, Nat.mod_eq_of_lt hs])
  simp only [Nat.zero_add] at hspec
  refine ⟨hspec.1, hspec.2, fun j hj => sub32_add s.msTicks j hj, ?_⟩
  have h0 : sub32 s.msTicks s.msTicks = 0 := by
    have := sub32_add s.msTicks 0 (by decide)
    rwa [Nat.add_zero, Nat.mod_eq_of_lt hs] at this
  cases sched with
  | nil => simp [Delay, DelayLoop, h0]
  | cons b rest => simp [Delay, DelayLoop, h0]

/-- C5 with `msTicks` two short of the wrap and `Delay(5)`: the call returns after five
ticks with `msTicks = 2`. -/
theorem Delay_wrap_safe_witness :
    (4294967293 < U32) ∧ (5 < U32) ∧
    Delay 5 ⟨4294967293, 0, FlagStatus.SET, 0, 0⟩
        [false, true, true, false, true, true, true, false, true]
      = some (⟨(4294967293 + 5) % U32, 0, FlagStatus.SET, 0, 0⟩, 5) :=
  ⟨by decide, by decide,
    (Delay_wrap_safe ⟨4294967293, 0, FlagStatus.SET, 0, 0⟩ 5 (by decide) (by decide)
      [false, true, true, false, true, true, true, false, true]).1 (by decide)⟩

/-! ## Dead-band and clamp -/

theorem toInt16_toInt32 (x : Int) : toInt16 (toInt32 x) = toInt16 x := by
  unfold toInt16 toInt32
  omega

/-- C6: with an integer `SPEED_COEFFICIENT`, for every speed `v` (32-bit or not):
if `-50 < v < 50` the value stored in `scaledSpeed` is 0; if `v ≥ 1000` it is
`1000 * SPEED_COEFFICIENT` as an `int16_t`, and if `v ≤ -1000` it is
`-1000 * SPEED_COEFFICIENT` as an `int16_t`; when these products fit in an `int16_t`
the stored value is the product itself. -/
theorem scaledSpeed_deadband_clamp (k v : Int) :
    (-50 < v ∧ v < 50 → scaledSpeed k v = 0) ∧
    (1000 ≤ v → scaledSpeed k v = toInt16 (1000 * k)) ∧
    (v ≤ -1000 → scaledSpeed k v = toInt16 (-1000 * k)) ∧
    (1000 ≤ v → -32768 ≤ 1000 * k → 1000 * k ≤ 32767 → scaledSpeed k v = 1000 * k) ∧
    (v ≤ -1000 → -32768 ≤ -1000 * k → -1000 * k ≤ 32767 → scaledSpeed k v = -1000 * k) := by
  have hhi : 1000 ≤ v → scaledSpeed k v = toInt16 (1000 * k) := by
    intro h
    have h1 : ¬ (v < 50 ∧ v > -50) := by omega
    have h2 : CLAMP v (-1000) 1000 = 1000 := by
      unfold CLAMP
      split_ifs <;> omega
    unfold scaledSpeed
    rw [if_neg h1, h2, toInt16_toInt32]
  have hlo : v ≤ -1000 → scaledSpeed k v = toInt16 (-1000 * k) := by
    intro h
    have h1 : ¬ (v < 50 ∧ v > -50) := by omega
    have h2 : CLAMP v (-1000) 1000 = -1000 := by
      unfold CLAMP
      split_ifs <;> omega
    unfold scaledSpeed
    rw [if_neg h1, h2, toInt16_toInt32]
  refine ⟨?_, hhi, hlo, ?_, ?_⟩
  · rintro ⟨h1, h2⟩
    unfold scaledSpeed
    rw [if_pos ⟨h2, h1⟩]
    rfl
  · intro h a b
    rw [hhi h]
    unfold toInt16
    omega
  · intro h a b
    rw [hlo h]
    unfold toInt16
    omega

/-- C6 with `SPEED_COEFFICIENT = -1`: 49 and -49 give 0, 1500 gives -1000 and -2000
gives 1000. -/
theorem scaledSpeed_deadband_clamp_witness :
    scaledSpeed (-1) 49 = 0 ∧ scaledSpeed (-1) (-49) = 0 ∧
    scaledSpeed (-1) 1500 = 1000 * (-1) ∧ scaledSpeed (-1) (-2000) = -1000 * (-1) :=
  ⟨(scaledSpeed_deadband_clamp (-1) 49).1 ⟨by decide, by decide⟩,
   (scaledSpeed_deadband_clamp (-1) (-49)).1 ⟨by decide, by decide⟩,
   (scaledSpeed_deadband_clamp (-1) 1500).2.2.2.1 (by decide) (by decide) (by decide),
   (scaledSpeed_deadband_clamp (-1) (-2000)).2.2.2.2 (by decide) (by decide) (by decide)⟩

/-! ## Battery bands -/

/-- C7 at its boundary values: for any thresholds with `BAT_LOW_LVL2 < BAT_LOW_LVL1`
(in particular for `BAT_LOW_DEAD < BAT_LOW_LVL2 < BAT_LOW_LVL1`),
a battery voltage equal to `BAT_LOW_LVL1` or to `BAT_LOW_LVL2` fails all three tests of the
chain and reaches `ShutOff()`, while any voltage strictly between two thresholds or above
the highest one gets its band. -/
theorem batteryBand_boundary (l1 l2 d : ℚ) (h21 : l2 < l1) :
    batteryBand l1 l2 d l1 = BatteryOutcome.shutdown ∧
    batteryBand l1 l2 d l2 = BatteryOutcome.shutdown ∧
    (∀ v, l1 < v → batteryBand l1 l2 d v = BatteryOutcome.green) ∧
    (∀ v, l2 < v → v < l1 → batteryBand l1 l2 d v = BatteryOutcome.orange) ∧
    (∀ v, d < v → v < l2 → batteryBand l1 l2 d v = BatteryOutcome.red) := by
  refine ⟨?_, ?_, ?_, ?_, ?_⟩
  · unfold batteryBand
    rw [if_neg (lt_irrefl l1), if_neg (fun h => lt_irrefl l1 h.2),
      if_neg (fun h => lt_asymm h21 h.2)]
  · unfold batteryBand
    rw [if_neg (not_lt.2 h21.le), if_neg (fun h => lt_irrefl l2 h.1),
      if_neg (fun h => lt_irrefl l2 h.2)]
  · intro v hv
    unfold batteryBand
    rw [if_pos hv]
  · intro v h1 h2
    unfold batteryBand
    rw [if_neg (not_lt.2 h2.le), if_pos ⟨h1, h2⟩]
  · intro v h1 h2
    unfold batteryBand
    rw [if_neg (not_lt.2 (h2.trans h21).le), if_neg (fun h => lt_asymm h2 h.1),
      if_pos ⟨h1, h2⟩]

/-- C7 with thresholds 35, 33 and 31: a battery at exactly 35 and one at exactly 33 are
both sent to `ShutOff()`. -/
theorem batteryBand_boundary_witness :
    batteryBand 35 33 31 35 = BatteryOutcome.shutdown ∧
    batteryBand 35 33 31 33 = BatteryOutcome.shutdown :=
  ⟨(batteryBand_boundary 35 33 31 (by norm_num)).1,
   (batteryBand_boundary 35 33 31 (by norm_num)).2.1⟩

end HUGS
